import Mathlib

/-!
Shallow embedding of the goldfish Modbus TCP server library
(message codec in message.go, handlers in handler.go, connection framing
in server.go) together with theorems about the embedded definitions.

Bytes are modelled as `Nat` (a well-formed byte is `< 256`); machine
integer casts are modelled with explicit `% 256` / `% 65536`; Go `panic`
from out-of-range slicing or indexing is modelled by `Option.none`; Go
`error` results are modelled with `Except GoErr` or `Option GoErr`.
-/

set_option maxRecDepth 10000

namespace Goldfish

/-- Model of Go `error` values as they matter to this library: either the
typed Modbus `Error` struct of message.go (carrying its exception `Code`
and message), or any other error value (`fmt.Errorf` results and the
like), of which only the message is relevant. -/
inductive GoErr where
  | modbus (code : Nat) (msg : String)
  | other (msg : String)
deriving DecidableEq

/-- message.go: `IllegalFunctionError = Error{Code: 1, ...}`. -/
def IllegalFunctionError : GoErr := .modbus 1 "illegal function"

/-- message.go: `IllegalDataValueError = Error{Code: 3, ...}`. -/
def IllegalDataValueError : GoErr := .modbus 3 "illegal data value"

/-- message.go: `SlaveDeviceFailureError = Error{Code: 4, ...}`. -/
def SlaveDeviceFailureError : GoErr := .modbus 4 "slave device failure"

/-- message.go: `AcknowledgeError = Error{Code: 5, ...}`. -/
def AcknowledgeError : GoErr := .modbus 5 "acknowledge"

/-- message.go: function code constant `ReadCoils = 1`. -/
def ReadCoils : Nat := 1

/-- message.go: function code constant `ReadDiscreteInputs = 2`. -/
def ReadDiscreteInputs : Nat := 2

/-- message.go: function code constant `ReadHoldingRegisters = 3`. -/
def ReadHoldingRegisters : Nat := 3

/-- message.go: function code constant `ReadInputRegisters = 4`. -/
def ReadInputRegisters : Nat := 4

/-- message.go: function code constant `WriteSingleCoil = 5`. -/
def WriteSingleCoil : Nat := 5

/-- message.go: function code constant `WriteSingleRegister = 6`. -/
def WriteSingleRegister : Nat := 6

/-- message.go: function code constant `WriteMultipleCoils = 15`. -/
def WriteMultipleCoils : Nat := 15

/-- message.go: the `WriteMultipleRegisters` const-spec carries no
expression of its own, so by the Go constant declaration rule it
repeats the previous expression list, `= 15`; the constant therefore
equals 15 (the same value as `WriteMultipleCoils`), despite its source
comment calling it function code 16. -/
def WriteMultipleRegisters : Nat := 15

/-- message.go: `type Value struct { v int }`, an integer meant to range
from -32768 through 65535. -/
structure Value where
  v : Int
deriving DecidableEq

/-- message.go: `func (v Value) Get() int { return v.v }`. -/
def Value.Get (v : Value) : Int := v.v

/-- message.go: `Value.Set` stores the value, failing with a plain
(non-Modbus) error when it is outside -32768 .. 65535.  The functional
model returns the updated value. -/
def Value.Set (_v : Value) (value : Int) : Except GoErr Value :=
  if value < -32768 ∨ 65535 < value then
    .error (.other "does not fit in 16 bytes")
  else
    .ok ⟨value⟩

/-- message.go: `NewValue` builds a `Value` through `Set`. -/
def NewValue (v : Int) : Except GoErr Value :=
  Value.Set ⟨0⟩ v

/-- Big-endian bytes of a 16-bit quantity, as `binary.Write` emits for a
`uint16` (total on `Nat` via the explicit truncations). -/
def u16be (v : Nat) : List Nat := [v / 256 % 256, v % 256]

/-- `binary.BigEndian.Uint16` applied to two consecutive bytes of a
buffer starting at `off`.  Callers gate the needed length explicitly, so
the `getD` defaults are never reached from the modelled code paths. -/
def be16 (l : List Nat) (off : Nat) : Nat :=
  l.getD off 0 * 256 + l.getD (off + 1) 0

/-- message.go: `Value.MarshalBinary` writes two big-endian bytes:
`int16(v.v)` when negative, `uint16(v.v)` otherwise.  Both casts wrap
modulo 2^16, so the emitted bytes are those of `v.v mod 65536` (the Int
emod is non-negative).  `binary.Write` to a `bytes.Buffer` cannot fail,
so the Go error branch is dead and the model is total. -/
def Value.MarshalBinary (v : Value) : List Nat :=
  u16be (v.v % 65536).toNat

/-- handler.go: `type Signedness int` with `Unsigned` and `Signed`. -/
inductive Signedness where
  | Unsigned
  | Signed
deriving DecidableEq

/-- Interpretation of two big-endian bytes as a register value under a
signedness: unsigned 0..65535, or signed twos-complement
-32768..32767. -/
def regValue (s : Signedness) (hi lo : Nat) : Value :=
  match s with
  | .Unsigned => ⟨(hi * 256 + lo : Nat)⟩
  | .Signed =>
      if 32768 ≤ hi * 256 + lo then ⟨(hi * 256 + lo : Nat) - 65536⟩
      else ⟨(hi * 256 + lo : Nat)⟩

/-- Modelled from the spec: `Value.UnmarshalBinary(bytes, signedness)` is
called by handler.go but its definition is absent from the sources in
src/ (only this older message.go without it is present).  Per spec
section 4.1 it requires exactly 2 bytes, failing with a plain format
error otherwise, and interprets them big-endian as signed 16-bit when
signedness is Signed, else as unsigned 16-bit. -/
def Value.UnmarshalBinary (b : List Nat) (s : Signedness) : Except GoErr Value :=
  match b with
  | [hi, lo] => .ok (regValue s hi lo)
  | _ => .error (.other "value must be 2 bytes")

/-- message.go: `type MBAP struct` with TransactionID, ProtocolID and
Length as `uint16` and UnitID as `uint8`. -/
structure MBAP where
  TransactionID : Nat
  ProtocolID : Nat
  Length : Nat
  UnitID : Nat
deriving DecidableEq

/-- message.go: `MBAP.UnmarshalBinary` fails on any buffer whose length
is not 7, else reads the four fields big-endian in order. -/
def MBAP.UnmarshalBinary (b : List Nat) : Except GoErr MBAP :=
  if b.length ≠ 7 then
    .error (.other "failed to unmarshal byte slice to MBAP: byte slice has invalid length")
  else
    .ok ⟨b.getD 0 0 * 256 + b.getD 1 0,
         b.getD 2 0 * 256 + b.getD 3 0,
         b.getD 4 0 * 256 + b.getD 5 0,
         b.getD 6 0⟩

/-- message.go: `MBAP.MarshalBinary` writes the four fields big-endian in
order; `binary.Write` to a `bytes.Buffer` cannot fail, so the Go error
branch is dead and the model is total. -/
def MBAP.MarshalBinary (m : MBAP) : List Nat :=
  u16be m.TransactionID ++ u16be m.ProtocolID ++ u16be m.Length ++ [m.UnitID % 256]

/-- message.go: `type Request struct { MBAP; FunctionCode uint8; Data []byte }`. -/
structure Request where
  mbap : MBAP
  FunctionCode : Nat
  Data : List Nat
deriving DecidableEq

/-- message.go: `Request.UnmarshalBinary` slices `b[0:7]` for the header,
indexes `b[7]` for the function code and slices `b[8:]` for the data.
The outer `Option` is `none` exactly when Go panics on an out-of-range
slice or index (buffers shorter than 8 bytes). -/
def Request.UnmarshalBinary (b : List Nat) : Option (Except GoErr Request) :=
  if b.length < 7 then none
  else
    match MBAP.UnmarshalBinary (b.take 7) with
    | .error e => some (.error e)
    | .ok m =>
        if b.length < 8 then none
        else some (.ok ⟨m, b.getD 7 0, b.drop 8⟩)

/-- message.go: `type Response struct` mirroring Request plus the
unexported `exception` flag. -/
structure Response where
  mbap : MBAP
  FunctionCode : Nat
  Data : List Nat
  exception : Bool
deriving DecidableEq

/-- message.go: `NewResponse` echoes the header and function code, sets
`Length = uint16(len(data)+3)` and then overwrites it with
`uint16(len(data)+2)` for WriteSingleCoil and WriteSingleRegister. -/
def NewResponse (r : Request) (data : List Nat) : Response :=
  let len :=
    if r.FunctionCode = WriteSingleCoil ∨ r.FunctionCode = WriteSingleRegister then
      (data.length + 2) % 65536
    else
      (data.length + 3) % 65536
  ⟨{ r.mbap with Length := len }, r.FunctionCode, data, false⟩

/-- message.go: `NewErrorResponse` sets `FunctionCode = r.FunctionCode +
0x80` (a `uint8` addition, hence modulo 256), `Data = []byte{5}`
overwritten with the typed exception code when the error is a Modbus
`Error`, and `Length = 3`. -/
def NewErrorResponse (r : Request) (err : GoErr) : Response :=
  let code :=
    match err with
    | .modbus c _ => c
    | .other _ => 5
  ⟨{ r.mbap with Length := 3 }, (r.FunctionCode + 128) % 256, [code], true⟩

/-- message.go: `Response.MarshalBinary` emits the header, the function
code, then a one-byte count of the data length only when the response is
not an exception and the function code is neither WriteSingleCoil nor
WriteSingleRegister, then the data bytes. -/
def Response.MarshalBinary (r : Response) : List Nat :=
  let count : List Nat :=
    if ¬ r.exception ∧ r.FunctionCode ≠ WriteSingleCoil ∧ r.FunctionCode ≠ WriteSingleRegister then
      [r.Data.length % 256]
    else
      []
  r.mbap.MarshalBinary ++ [r.FunctionCode % 256] ++ count ++ r.Data.map (fun b => b % 256)

/-- handler.go: the inner loop body of `reduce` applied to one group of
up to 8 cells.  The Go code first reverses the group in place, then for
each cell shifts the byte left (`uint8`, hence `% 256`) and ORs in 1
when the cell value is positive. -/
def groupByte (g : List Value) : Nat :=
  g.reverse.foldl
    (fun acc v =>
      if 0 < v.Get then Nat.lor (acc * 2 % 256) 1 else acc * 2 % 256)
    0

/-- handler.go: `reduce` packs a list of cells into bytes, 8 cells per
byte, writing the byte of the first group at the last output index and
the byte of the final (possibly partial) group at index 0.  The Go
`for i := 0; i <= len(values); i += 8` loop with `end = min(i+8, len)`
visits exactly the consecutive groups of 8 (the trailing empty slice of
a multiple-of-8 input contributes nothing), so it is embedded as
structural recursion taking 8 cells at a time. -/
def reduce : List Value → List Nat
  | [] => []
  | v0 :: v1 :: v2 :: v3 :: v4 :: v5 :: v6 :: v7 :: r :: rest =>
      reduce (r :: rest) ++ [groupByte [v0, v1, v2, v3, v4, v5, v6, v7]]
  | l => [groupByte l]

/-- handler.go: the output length computed by `reduce`:
`len/8`, plus one when `len%8 > 0`. -/
def numGroups (l : List Value) : Nat :=
  l.length / 8 + (if l.length % 8 > 0 then 1 else 0)

/-- Little-endian weighted sum of the boolean cells of one group: cell
`i` contributes `2^i` exactly when its underlying value is positive.
Specification-side characterization of the byte `reduce` builds for a
group. -/
def bitsVal : List Value → Nat
  | [] => 0
  | v :: t => (if 0 < v.v then 1 else 0) + 2 * bitsVal t

/-- handler.go: `type ReadHandler struct { handle ReadHandlerFunc }`.
The callback receives unitID, start and quantity (all derived from
unsigned wire fields, hence `Nat`) and returns values or an error. -/
structure ReadHandler where
  handle : Nat → Nat → Nat → Except GoErr (List Value)

/-- handler.go: the response data built by `ReadHandler.ServeModbus`:
bit-packed for ReadCoils and ReadDiscreteInputs, otherwise each value
marshalled to its 2 big-endian bytes, concatenated in order
(`Value.MarshalBinary` cannot fail, so the SlaveDeviceFailure branch of
the Go loop is dead). -/
def readData (req : Request) (values : List Value) : List Nat :=
  if req.FunctionCode = ReadCoils ∨ req.FunctionCode = ReadDiscreteInputs then
    reduce values
  else
    (values.map Value.MarshalBinary).flatten

/-- handler.go: `ReadHandler.ServeModbus` reads start and quantity from
the first four payload bytes (Go panics when the payload is shorter:
`none`), invokes the callback, and issues exactly one write through
`respond`: an exception response on callback error, else a success
response.  The result lists the byte strings written, in order. -/
def ReadHandler.ServeModbus (h : ReadHandler) (req : Request) :
    Option (List (List Nat)) :=
  if req.Data.length < 4 then none
  else
    let start := be16 req.Data 0
    let quantity := be16 req.Data 2
    match h.handle req.mbap.UnitID start quantity with
    | .error e => some [(NewErrorResponse req e).MarshalBinary]
    | .ok values => some [(NewResponse req (readData req values)).MarshalBinary]

/-- handler.go: `type WriteHandler struct` holding the callback and the
configured signedness. -/
structure WriteHandler where
  handler : Nat → Nat → List Value → Option GoErr
  signedness : Signedness

/-- handler.go: `WriteHandler.handleWriteSingleCoil` decodes the value
bytes `Data[2:4]` as unsigned (panic, hence `none`, when the payload is
shorter than 4), wraps a decode failure in a plain error, and normalizes
any nonzero value to 1 through `Value.Set`. -/
def WriteHandler.handleWriteSingleCoil (_h : WriteHandler) (req : Request) :
    Option (Except GoErr (List Value)) :=
  if req.Data.length < 4 then none
  else
    match Value.UnmarshalBinary ((req.Data.drop 2).take 2) .Unsigned with
    | .error _ => some (.error (.other "failed to hande write single coil request"))
    | .ok v =>
        if v.Get ≠ 0 then
          match v.Set 1 with
          | .error _ => some (.error IllegalDataValueError)
          | .ok v2 => some (.ok [v2])
        else some (.ok [v])

/-- handler.go: `WriteHandler.handleWriteSingleRegister` decodes
`Data[2:4]` per the configured signedness (panic, hence `none`, when the
payload is shorter than 4), wrapping a decode failure in a plain
error. -/
def WriteHandler.handleWriteSingleRegister (h : WriteHandler) (req : Request) :
    Option (Except GoErr (List Value)) :=
  if req.Data.length < 4 then none
  else
    match Value.UnmarshalBinary ((req.Data.drop 2).take 2) h.signedness with
    | .error _ => some (.error (.other "failed to hande write single register request"))
    | .ok v => some (.ok [v])

/-- handler.go: the decode loop of `handleWriteMultipleRegisters`,
`for i := 0; i < quantity*2; i += 2`, reading the 2-byte slice at
`off+i` each round; a failure wraps into a plain error and stops.  Only
called with `off + 2*q` within the buffer, where every slice has exactly
2 bytes. -/
def decodeRegs (data : List Nat) (s : Signedness) : Nat → Nat → Except GoErr (List Value)
  | _off, 0 => .ok []
  | off, q + 1 =>
      match Value.UnmarshalBinary ((data.drop off).take 2) s with
      | .error _ => .error (.other "failed to hande write multiple registers request")
      | .ok v =>
          match decodeRegs data s (off + 2) q with
          | .error e => .error e
          | .ok vs => .ok (v :: vs)

/-- handler.go: `WriteHandler.handleWriteMultipleRegisters` reads the
quantity from `Data[2:4]` (panic, hence `none`, when the payload is
shorter than 4), requires the payload length to be exactly
`5 + quantity*2` (else IllegalDataValue), then decodes the quantity
2-byte values starting at offset 5. -/
def WriteHandler.handleWriteMultipleRegisters (h : WriteHandler) (req : Request) :
    Option (Except GoErr (List Value)) :=
  if req.Data.length < 4 then none
  else
    let quantity := be16 req.Data 2
    if req.Data.length ≠ 5 + quantity * 2 then some (.error IllegalDataValueError)
    else some (decodeRegs req.Data h.signedness 5 quantity)

/-- handler.go: the `switch req.FunctionCode` of
`WriteHandler.ServeModbus`; a function code with no case leaves values
nil and err nil.  Since `WriteMultipleRegisters` equals 15, the
multiple-registers case fires for wire code 15, and wire code 16 has no
case at all: a code-16 request reaches the callback undecoded, with nil
values. -/
def WriteHandler.decode (h : WriteHandler) (req : Request) :
    Option (Except GoErr (List Value)) :=
  if req.FunctionCode = WriteSingleCoil then h.handleWriteSingleCoil req
  else if req.FunctionCode = WriteSingleRegister then h.handleWriteSingleRegister req
  else if req.FunctionCode = WriteMultipleRegisters then h.handleWriteMultipleRegisters req
  else some (.ok [])

/-- handler.go: `WriteHandler.ServeModbus` reads the start address from
`Data[:2]` (panic, hence `none`, when shorter), dispatches on the
function code, writes one exception response on a decode error, invokes
the callback, writes one exception response on a callback error, and on
success writes one response echoing `Data[0:4]` (panic, hence `none`,
when the payload is shorter than 4).  The result lists the byte strings
written, in order. -/
def WriteHandler.ServeModbus (h : WriteHandler) (req : Request) :
    Option (List (List Nat)) :=
  if req.Data.length < 2 then none
  else
    let start := be16 req.Data 0
    match h.decode req with
    | none => none
    | some (.error e) => some [(NewErrorResponse req e).MarshalBinary]
    | some (.ok values) =>
        match h.handler req.mbap.UnitID start values with
        | some e => some [(NewErrorResponse req e).MarshalBinary]
        | none =>
            if req.Data.length < 4 then none
            else some [(NewResponse req (req.Data.take 4)).MarshalBinary]

/-- server.go framing model: the successive return values of the
underlying connection `Read` are given as a list of chunks.
`bufio.Reader.Peek(n)` fills its buffer one underlying read at a time
until at least `n` bytes are buffered or the stream ends; this returns
the buffered bytes and the chunks not yet consumed. -/
def fillBuf (buf : List Nat) (n : Nat) : List (List Nat) → List Nat × List (List Nat)
  | [] => (buf, [])
  | c :: cs =>
      if n ≤ buf.length then (buf, c :: cs)
      else fillBuf (buf ++ c) n cs

/-- server.go: `Server.readMessage` peeks 6 bytes (error, hence `none`,
when the stream ends first), takes the big-endian length at bytes 4..5,
allocates a zeroed buffer of `6 + length` bytes and performs one
`bufio.Reader.Read` into it.  That single read copies only the bytes
already buffered, `min (6+length) buffered`, and the function returns
the whole allocated buffer, zero padding included, without checking the
count read. -/
def readMessage (chunks : List (List Nat)) : Option (List Nat) :=
  match fillBuf [] 6 chunks with
  | (buf, _rest) =>
      if 6 ≤ buf.length then
        let sz := 6 + (buf.getD 4 0 * 256 + buf.getD 5 0)
        let k := min sz buf.length
        some (buf.take k ++ List.replicate (sz - k) 0)
      else none

/-- Reading an in-range position of a `take` prefix sees the original
list. -/
theorem getD_take_of_lt (l : List Nat) (n i : Nat) (d : Nat) (h : i < n) :
    (l.take n).getD i d = l.getD i d := by
  simp [List.getD, List.getElem?_take_of_lt h]

/-- C9: `Request.UnmarshalBinary` succeeds on every buffer of length at
least 8, taking the header from bytes 0..6, the function code from byte
7 and the data from byte 8 on; it panics (models as `none`) on every
shorter buffer; and it never returns an error value, so the MBAP
length-check error branch is unreachable through request decode. -/
theorem C9_request_unmarshal :
    (∀ b : List Nat, 8 ≤ b.length →
      Request.UnmarshalBinary b =
        some (.ok ⟨⟨b.getD 0 0 * 256 + b.getD 1 0, b.getD 2 0 * 256 + b.getD 3 0,
                    b.getD 4 0 * 256 + b.getD 5 0, b.getD 6 0⟩,
                   b.getD 7 0, b.drop 8⟩)) ∧
    (∀ b : List Nat, b.length < 8 → Request.UnmarshalBinary b = none) ∧
    (∀ (b : List Nat) (e : GoErr), Request.UnmarshalBinary b ≠ some (.error e)) := by
  have hok : ∀ b : List Nat, 8 ≤ b.length →
      Request.UnmarshalBinary b =
        some (.ok ⟨⟨b.getD 0 0 * 256 + b.getD 1 0, b.getD 2 0 * 256 + b.getD 3 0,
                    b.getD 4 0 * 256 + b.getD 5 0, b.getD 6 0⟩,
                   b.getD 7 0, b.drop 8⟩) := by
    intro b hb
    have h7 : ¬ b.length < 7 := by omega
    have hlen : (b.take 7).length = 7 := by
      simp [List.length_take]; omega
    rw [Request.UnmarshalBinary, if_neg h7, MBAP.UnmarshalBinary, if_neg (by omega)]
    simp only [if_neg (by omega : ¬ b.length < 8),
      getD_take_of_lt b 7 0 0 (by omega), getD_take_of_lt b 7 1 0 (by omega),
      getD_take_of_lt b 7 2 0 (by omega), getD_take_of_lt b 7 3 0 (by omega),
      getD_take_of_lt b 7 4 0 (by omega), getD_take_of_lt b 7 5 0 (by omega),
      getD_take_of_lt b 7 6 0 (by omega)]
  have hnone : ∀ b : List Nat, b.length < 8 → Request.UnmarshalBinary b = none := by
    intro b hb
    by_cases h7 : b.length < 7
    · rw [Request.UnmarshalBinary, if_pos h7]
    · have hlen : (b.take 7).length = 7 := by
        simp [List.length_take]; omega
      rw [Request.UnmarshalBinary, if_neg h7, MBAP.UnmarshalBinary, if_neg (by omega)]
      simp only [if_pos hb]
  refine ⟨hok, hnone, ?_⟩
  intro b e
  rcases lt_or_ge b.length 8 with h | h
  · rw [hnone b h]; simp
  · rw [hok b h]; simp

/-- Witness for C9 at a concrete 9-byte buffer. -/
theorem C9_witness :
    Request.UnmarshalBinary [0, 1, 0, 2, 0, 3, 4, 5, 6] =
      some (.ok ⟨⟨1, 2, 3, 4⟩, 5, [6]⟩) := by
  rw [C9_request_unmarshal.1 [0, 1, 0, 2, 0, 3, 4, 5, 6] (by decide)]
  rfl

/-- C7: decoding any 7-byte buffer into an MBAP header succeeds, and
re-encoding the header reproduces the original bytes. -/
theorem C7_mbap_roundtrip (b : List Nat) (h7 : b.length = 7)
    (hb : ∀ x ∈ b, x < 256) :
    ∃ m, MBAP.UnmarshalBinary b = .ok m ∧ m.MarshalBinary = b := by
  rcases b with _ | ⟨b0, _ | ⟨b1, _ | ⟨b2, _ | ⟨b3, _ | ⟨b4, _ | ⟨b5, _ | ⟨b6, _ | ⟨b7, t⟩⟩⟩⟩⟩⟩⟩⟩ <;>
    simp only [List.length_cons, List.length_nil] at h7 <;> try omega
  have h0 : b0 < 256 := hb b0 (by simp)
  have h1 : b1 < 256 := hb b1 (by simp)
  have h2 : b2 < 256 := hb b2 (by simp)
  have h3 : b3 < 256 := hb b3 (by simp)
  have h4 : b4 < 256 := hb b4 (by simp)
  have h5 : b5 < 256 := hb b5 (by simp)
  have h6 : b6 < 256 := hb b6 (by simp)
  refine ⟨⟨b0 * 256 + b1, b2 * 256 + b3, b4 * 256 + b5, b6⟩, ?_, ?_⟩
  · rw [MBAP.UnmarshalBinary, if_neg (by simp)]
    rfl
  · simp only [MBAP.MarshalBinary, u16be, List.cons_append, List.nil_append,
      List.cons.injEq, and_true]
    omega

/-- Witness for C7 at a concrete 7-byte buffer. -/
theorem C7_witness :
    ∃ m, MBAP.UnmarshalBinary [0, 18, 0, 1, 0, 18, 2] = .ok m ∧
      m.MarshalBinary = [0, 18, 0, 1, 0, 18, 2] :=
  C7_mbap_roundtrip [0, 18, 0, 1, 0, 18, 2] (by decide) (by decide)

/-- C4 counterexample: for a request whose function code already has the
high bit set (0x85), `NewErrorResponse` yields function code 5, not
`0x85 ||| 0x80 = 0x85` as the claim states. -/
theorem C4_counterexample :
    (NewErrorResponse ⟨⟨0, 0, 0, 0⟩, 0x85, []⟩ (GoErr.other "boom")).FunctionCode = 5 ∧
    Nat.lor 0x85 0x80 = 0x85 ∧ (5 : Nat) ≠ 0x85 := by
  decide

/-- C4 amended: `NewErrorResponse` sets the function code to the request
code plus 0x80 modulo 256 (equal to the bitwise OR only when the high
bit is clear), a single data byte holding the typed exception code or
the default 5, and Length 3. -/
theorem C4_amended_error_response (req : Request) (err : GoErr) :
    (NewErrorResponse req err).FunctionCode = (req.FunctionCode + 128) % 256 ∧
    (req.FunctionCode < 128 →
      (NewErrorResponse req err).FunctionCode = Nat.lor req.FunctionCode 128) ∧
    (∀ c m, err = GoErr.modbus c m → (NewErrorResponse req err).Data = [c]) ∧
    (∀ m, err = GoErr.other m → (NewErrorResponse req err).Data = [5]) ∧
    (NewErrorResponse req err).mbap.Length = 3 := by
  refine ⟨rfl, ?_, ?_, ?_, rfl⟩
  · intro h
    have key : ∀ x : Nat, x < 128 → (x + 128) % 256 = Nat.lor x 128 := by decide
    exact key req.FunctionCode h
  · intro c m h; subst h; rfl
  · intro m h; subst h; rfl

/-- Witness for C4 amended at function code 3. -/
theorem C4_amended_witness :
    (NewErrorResponse ⟨⟨0, 0, 0, 0⟩, 3, []⟩ (GoErr.other "x")).FunctionCode =
      Nat.lor 3 128 :=
  (C4_amended_error_response ⟨⟨0, 0, 0, 0⟩, 3, []⟩ (GoErr.other "x")).2.1 (by decide)

/-- C10: for any error that is not the typed Modbus `Error`,
`NewErrorResponse` sets the single data byte to 5, the code of
`AcknowledgeError`. -/
theorem C10_default_exception_code (req : Request) (msg : String) :
    (NewErrorResponse req (GoErr.other msg)).Data = [5] ∧
    AcknowledgeError = GoErr.modbus 5 "acknowledge" :=
  ⟨rfl, rfl⟩

/-- Witness for C10 at a concrete request and error message. -/
theorem C10_witness :
    (NewErrorResponse ⟨⟨0, 0, 0, 0⟩, 3, []⟩ (GoErr.other "io failure")).Data = [5] :=
  (C10_default_exception_code ⟨⟨0, 0, 0, 0⟩, 3, []⟩ "io failure").1

/-- C3: at the concrete stream `[0,0,0,0,0,2,9,9]` (declared length 2,
total size 8), delivery in two chunks of 6 and 2 bytes makes
`readMessage` return the zero-padded buffer `[0,0,0,0,0,2,0,0]` with no
error instead of the first 8 stream bytes, while one-chunk delivery of
the same stream returns them exactly; the framed message thus depends on
transport chunking, contradicting the claim that exactly the first
`6 + length` stream bytes are read. -/
theorem C3_short_read :
    readMessage [[0, 0, 0, 0, 0, 2], [9, 9]] = some [0, 0, 0, 0, 0, 2, 0, 0] ∧
    ([[0, 0, 0, 0, 0, 2], [9, 9]] : List (List Nat)).flatten = [0, 0, 0, 0, 0, 2, 9, 9] ∧
    readMessage [[0, 0, 0, 0, 0, 2, 9, 9]] = some [0, 0, 0, 0, 0, 2, 9, 9] ∧
    ([0, 0, 0, 0, 0, 2, 0, 0] : List Nat) ≠ [0, 0, 0, 0, 0, 2, 9, 9] := by
  decide

/-- C8: the read handler issues exactly one write for every request with
at least 4 payload bytes: the marshalled exception response when the
callback errs, else the marshalled success response. -/
theorem C8_exactly_one_write (h : ReadHandler) (req : Request)
    (hlen : 4 ≤ req.Data.length) :
    h.ServeModbus req =
      some [match h.handle req.mbap.UnitID (be16 req.Data 0) (be16 req.Data 2) with
            | .error e => (NewErrorResponse req e).MarshalBinary
            | .ok values => (NewResponse req (readData req values)).MarshalBinary] ∧
    ∀ ws, h.ServeModbus req = some ws → ws.length = 1 := by
  have hmain : h.ServeModbus req =
      some [match h.handle req.mbap.UnitID (be16 req.Data 0) (be16 req.Data 2) with
            | .error e => (NewErrorResponse req e).MarshalBinary
            | .ok values => (NewResponse req (readData req values)).MarshalBinary] := by
    rw [ReadHandler.ServeModbus, if_neg (by omega : ¬ req.Data.length < 4)]
    rcases hh : h.handle req.mbap.UnitID (be16 req.Data 0) (be16 req.Data 2) with e | values <;>
      simp [hh]
  refine ⟨hmain, ?_⟩
  intro ws hws
  rw [hmain] at hws
  cases hws
  rfl

/-- Witness for C8 at the ReadCoils vector of handler_test.go. -/
theorem C8_witness :
    ReadHandler.ServeModbus ⟨fun _ _ _ => Except.ok [⟨0⟩, ⟨1⟩, ⟨1⟩]⟩
        ⟨⟨0, 0, 0, 0⟩, 1, [0, 5, 0, 3]⟩ =
      some [[0, 0, 0, 0, 0, 4, 0, 1, 1, 6]] := by
  rw [(C8_exactly_one_write ⟨fun _ _ _ => Except.ok [⟨0⟩, ⟨1⟩, ⟨1⟩]⟩
    ⟨⟨0, 0, 0, 0⟩, 1, [0, 5, 0, 3]⟩ (by decide)).1]
  decide

/-- A 2-byte slice `data[off : off+2]` in terms of positional reads. -/
theorem drop_take_two (l : List Nat) (off : Nat) (h : off + 2 ≤ l.length) :
    (l.drop off).take 2 = [l.getD off 0, l.getD (off + 1) 0] := by
  have h1 : off < l.length := by omega
  have h2 : off + 1 < l.length := by omega
  rw [List.drop_eq_getElem_cons h1, List.take_succ_cons,
    List.drop_eq_getElem_cons (by omega : off + 1 < l.length), List.take_succ_cons,
    List.take_zero, List.getD_eq_getElem l 0 h1, List.getD_eq_getElem l 0 h2]

/-- The decode loop of `handleWriteMultipleRegisters` yields exactly `q`
values read at offsets `off, off+2, ...` when they all lie inside the
buffer. -/
theorem decodeRegs_ok (s : Signedness) (data : List Nat) :
    ∀ (q off : Nat), off + 2 * q ≤ data.length →
      decodeRegs data s off q =
        .ok ((List.range q).map fun j =>
          regValue s (data.getD (off + 2 * j) 0) (data.getD (off + 2 * j + 1) 0)) := by
  intro q
  induction q with
  | zero => intro off _; simp [decodeRegs]
  | succ q ih =>
      intro off hoff
      rw [decodeRegs, drop_take_two data off (by omega)]
      rw [show Value.UnmarshalBinary [data.getD off 0, data.getD (off + 1) 0] s =
        .ok (regValue s (data.getD off 0) (data.getD (off + 1) 0)) from rfl]
      rw [ih (off + 2) (by omega)]
      have hlist : (List.range (q + 1)).map (fun j =>
            regValue s (data.getD (off + 2 * j) 0) (data.getD (off + 2 * j + 1) 0)) =
          regValue s (data.getD off 0) (data.getD (off + 1) 0) ::
            (List.range q).map (fun j =>
              regValue s (data.getD (off + 2 + 2 * j) 0)
                (data.getD (off + 2 + 2 * j + 1) 0)) := by
        rw [List.range_succ_eq_map, List.map_cons, List.map_map]
        simp only [Nat.mul_zero, Nat.add_zero]
        refine congrArg (List.cons _) ?_
        refine List.map_congr_left fun j hj => ?_
        simp only [Function.comp_apply, Nat.succ_eq_add_one]
        rw [show off + 2 * (j + 1) = off + 2 + 2 * j from by omega]
      rw [hlist]

/-- C5: for every WriteMultipleRegisters payload of at least 4 bytes
(quantity readable), a total length other than `5 + quantity*2` fails
with IllegalDataValue, and otherwise the handler decodes exactly
`quantity` consecutive 2-byte values from offset 5 on, in payload order,
interpreted per the configured signedness. -/
theorem C5_write_multiple_registers (h : WriteHandler) (req : Request)
    (hlen : 4 ≤ req.Data.length) :
    (req.Data.length ≠ 5 + be16 req.Data 2 * 2 →
      h.handleWriteMultipleRegisters req = some (.error IllegalDataValueError)) ∧
    (req.Data.length = 5 + be16 req.Data 2 * 2 →
      h.handleWriteMultipleRegisters req =
        some (.ok ((List.range (be16 req.Data 2)).map fun j =>
          regValue h.signedness (req.Data.getD (5 + 2 * j) 0)
            (req.Data.getD (5 + 2 * j + 1) 0)))) := by
  constructor
  · intro hne
    rw [WriteHandler.handleWriteMultipleRegisters, if_neg (by omega)]
    simp only [if_pos hne]
  · intro heq
    rw [WriteHandler.handleWriteMultipleRegisters, if_neg (by omega)]
    simp only [if_neg (show ¬ req.Data.length ≠ 5 + be16 req.Data 2 * 2 by omega)]
    rw [decodeRegs_ok h.signedness req.Data (be16 req.Data 2) 5 (by omega)]

/-- Witness for C5: a quantity-2 request decoding to the values 7 and
256. -/
theorem C5_witness :
    WriteHandler.handleWriteMultipleRegisters ⟨fun _ _ _ => none, .Unsigned⟩
        ⟨⟨0, 0, 0, 0⟩, 16, [0, 1, 0, 2, 4, 0, 7, 1, 0]⟩ =
      some (.ok [⟨7⟩, ⟨256⟩]) := by
  rw [(C5_write_multiple_registers ⟨fun _ _ _ => none, .Unsigned⟩
    ⟨⟨0, 0, 0, 0⟩, 16, [0, 1, 0, 2, 4, 0, 7, 1, 0]⟩ (by decide)).2 (by decide)]
  rfl

/-- On a successful decode and callback, `WriteHandler.ServeModbus`
issues exactly the success response echoing `Data[0:4]`. -/
theorem serve_success (h : WriteHandler) (req : Request) (vals : List Value)
    (hdec : h.decode req = some (.ok vals))
    (hlen : 4 ≤ req.Data.length)
    (hcb : h.handler req.mbap.UnitID (be16 req.Data 0) vals = none) :
    h.ServeModbus req = some [(NewResponse req (req.Data.take 4)).MarshalBinary] := by
  rw [WriteHandler.ServeModbus]
  simp only [if_neg (show ¬ req.Data.length < 2 by omega), hdec, hcb,
    if_neg (show ¬ req.Data.length < 4 by omega)]

/-- A successful decode under one of the three write function codes
implies the payload holds at least 4 bytes (all three decoders read
`Data[2:4]` first). -/
theorem decode_ok_length (h : WriteHandler) (req : Request) (vals : List Value)
    (hfc : req.FunctionCode = WriteSingleCoil ∨ req.FunctionCode = WriteSingleRegister ∨
      req.FunctionCode = WriteMultipleRegisters)
    (hdec : h.decode req = some (.ok vals)) : 4 ≤ req.Data.length := by
  by_contra hlt
  push_neg at hlt
  rcases hfc with h5 | h6 | h16
  · simp [WriteHandler.decode, h5, WriteSingleCoil, WriteSingleRegister,
      WriteHandler.handleWriteSingleCoil, if_pos hlt] at hdec
  · simp [WriteHandler.decode, h6, WriteSingleCoil, WriteSingleRegister,
      WriteHandler.handleWriteSingleRegister, if_pos hlt] at hdec
  · simp [WriteHandler.decode, h16, WriteSingleCoil, WriteSingleRegister,
      WriteMultipleRegisters, WriteHandler.handleWriteMultipleRegisters,
      if_pos hlt] at hdec

/-- C2 counterexample: a request with wire function code 16 — which in
this program is not `WriteMultipleRegisters` (that constant repeats
`= 15`) and hits no decode case, so its decode trivially succeeds with
nil values — served with a succeeding callback produces a response
whose encoding inserts a byte-count byte (here 4, at index 8) between
the function code and the echoed data: the no-byte-count shape claimed
for code 16 does not hold. -/
theorem C2_counterexample :
    WriteHandler.ServeModbus ⟨fun _ _ _ => none, .Unsigned⟩
        ⟨⟨0, 0, 0, 0⟩, 16, [0, 1, 0, 1, 2, 0, 7]⟩ =
      some [[0, 0, 0, 0, 0, 7, 0, 16, 4, 0, 1, 0, 1]] ∧
    (NewResponse ⟨⟨0, 0, 0, 0⟩, 16, [0, 1, 0, 1, 2, 0, 7]⟩ [0, 1, 0, 1]).MarshalBinary ≠
      (NewResponse ⟨⟨0, 0, 0, 0⟩, 16, [0, 1, 0, 1, 2, 0, 7]⟩
          [0, 1, 0, 1]).mbap.MarshalBinary ++ [16] ++ [0, 1, 0, 1] := by
  decide

/-- C2 amended: the write handler decodes function codes 5, 6 and 15
(`WriteMultipleRegisters` repeats `= 15` in the source const block;
wire code 16 hits no switch case, so a code-16 request undergoes no
decode and reaches the callback with nil values).  Every successfully
decoded and served write request among codes 5, 6 and 15 is answered
with one success response carrying exactly the first 4 payload bytes as
data; its wire form has no byte-count byte for WriteSingleCoil and
WriteSingleRegister, while for code 15 a byte-count byte (value 4) sits
between the function code and the data. -/
theorem C2_amended_write_response (h : WriteHandler) (req : Request) (vals : List Value)
    (hfc : req.FunctionCode = WriteSingleCoil ∨ req.FunctionCode = WriteSingleRegister ∨
      req.FunctionCode = WriteMultipleRegisters)
    (hdec : h.decode req = some (.ok vals))
    (hcb : h.handler req.mbap.UnitID (be16 req.Data 0) vals = none) :
    h.ServeModbus req = some [(NewResponse req (req.Data.take 4)).MarshalBinary] ∧
    (NewResponse req (req.Data.take 4)).Data = req.Data.take 4 ∧
    ((req.FunctionCode = WriteSingleCoil ∨ req.FunctionCode = WriteSingleRegister) →
      (NewResponse req (req.Data.take 4)).MarshalBinary =
        (NewResponse req (req.Data.take 4)).mbap.MarshalBinary ++
          [req.FunctionCode % 256] ++ (req.Data.take 4).map (fun b => b % 256)) ∧
    (req.FunctionCode = WriteMultipleRegisters →
      (NewResponse req (req.Data.take 4)).MarshalBinary =
        (NewResponse req (req.Data.take 4)).mbap.MarshalBinary ++
          [req.FunctionCode % 256] ++ [4] ++ (req.Data.take 4).map (fun b => b % 256)) ∧
    (∀ r : Request, r.FunctionCode = 16 → h.decode r = some (Except.ok [])) := by
  have hlen : 4 ≤ req.Data.length := decode_ok_length h req vals hfc hdec
  refine ⟨serve_success h req vals hdec hlen hcb, rfl, ?_, ?_, ?_⟩
  · intro h56
    rcases h56 with h5 | h5 <;>
      simp [Response.MarshalBinary, NewResponse, h5, WriteSingleCoil,
        WriteSingleRegister]
  · intro h16
    have htake : (req.Data.take 4).length = 4 := by
      simp [List.length_take]; omega
    simp [Response.MarshalBinary, NewResponse, h16, WriteSingleCoil,
      WriteSingleRegister, WriteMultipleRegisters, htake]
  · intro r hr16
    rw [WriteHandler.decode]
    simp [hr16, WriteSingleCoil, WriteSingleRegister, WriteMultipleRegisters]

/-- Witness for C2 amended at the WriteSingleCoil vector of
handler_test.go. -/
theorem C2_amended_witness :
    WriteHandler.ServeModbus ⟨fun _ _ _ => none, .Unsigned⟩
        ⟨⟨0, 0, 0, 0⟩, 5, [0, 1, 0, 0]⟩ =
      some [[0, 0, 0, 0, 0, 6, 0, 5, 0, 1, 0, 0]] := by
  rw [(C2_amended_write_response ⟨fun _ _ _ => none, .Unsigned⟩
    ⟨⟨0, 0, 0, 0⟩, 5, [0, 1, 0, 0]⟩ [⟨0⟩] (Or.inl rfl) rfl rfl).1]
  decide

/-- C6: a WriteSingleRegister request whose value field is 0xf388 drives
the callback with -3192 under Signed and with 62344 under Unsigned
signedness (the proofs go through only because the serve path applies
the callback at exactly those values), and a successful callback is
answered by the response echoing the original 4 payload bytes. -/
theorem C6_signedness (d0 d1 tid pid ln uid : Nat)
    (cbS cbU : Nat → Nat → List Value → Option GoErr)
    (hS : cbS uid (d0 * 256 + d1) [⟨-3192⟩] = none)
    (hU : cbU uid (d0 * 256 + d1) [⟨62344⟩] = none) :
    WriteHandler.ServeModbus ⟨cbS, .Signed⟩
        ⟨⟨tid, pid, ln, uid⟩, WriteSingleRegister, [d0, d1, 0xf3, 0x88]⟩ =
      some [(NewResponse ⟨⟨tid, pid, ln, uid⟩, WriteSingleRegister, [d0, d1, 0xf3, 0x88]⟩
        [d0, d1, 0xf3, 0x88]).MarshalBinary] ∧
    WriteHandler.ServeModbus ⟨cbU, .Unsigned⟩
        ⟨⟨tid, pid, ln, uid⟩, WriteSingleRegister, [d0, d1, 0xf3, 0x88]⟩ =
      some [(NewResponse ⟨⟨tid, pid, ln, uid⟩, WriteSingleRegister, [d0, d1, 0xf3, 0x88]⟩
        [d0, d1, 0xf3, 0x88]).MarshalBinary] ∧
    (NewResponse ⟨⟨tid, pid, ln, uid⟩, WriteSingleRegister, [d0, d1, 0xf3, 0x88]⟩
        [d0, d1, 0xf3, 0x88]).Data = [d0, d1, 0xf3, 0x88] := by
  refine ⟨?_, ?_, rfl⟩
  · have hdec : (⟨cbS, .Signed⟩ : WriteHandler).decode
        ⟨⟨tid, pid, ln, uid⟩, WriteSingleRegister, [d0, d1, 0xf3, 0x88]⟩ =
        some (.ok [⟨-3192⟩]) := rfl
    have h4 : 4 ≤ ([d0, d1, 0xf3, 0x88] : List Nat).length := Nat.le_refl 4
    exact serve_success ⟨cbS, .Signed⟩
      ⟨⟨tid, pid, ln, uid⟩, WriteSingleRegister, [d0, d1, 0xf3, 0x88]⟩ [⟨-3192⟩]
      hdec h4 hS
  · have hdec : (⟨cbU, .Unsigned⟩ : WriteHandler).decode
        ⟨⟨tid, pid, ln, uid⟩, WriteSingleRegister, [d0, d1, 0xf3, 0x88]⟩ =
        some (.ok [⟨62344⟩]) := rfl
    have h4 : 4 ≤ ([d0, d1, 0xf3, 0x88] : List Nat).length := Nat.le_refl 4
    exact serve_success ⟨cbU, .Unsigned⟩
      ⟨⟨tid, pid, ln, uid⟩, WriteSingleRegister, [d0, d1, 0xf3, 0x88]⟩ [⟨62344⟩]
      hdec h4 hU

/-- Witness for C6 with always-succeeding callbacks. -/
theorem C6_witness :
    WriteHandler.ServeModbus ⟨fun _ _ _ => none, .Signed⟩
        ⟨⟨0, 0, 0, 0⟩, 6, [0, 1, 0xf3, 0x88]⟩ =
      some [(NewResponse ⟨⟨0, 0, 0, 0⟩, 6, [0, 1, 0xf3, 0x88]⟩
        [0, 1, 0xf3, 0x88]).MarshalBinary] :=
  (C6_signedness 0 1 0 0 0 0 (fun _ _ _ => none) (fun _ _ _ => none) rfl rfl).1

/-- `bitsVal` of a group is bounded by 2 to its length. -/
theorem bitsVal_lt (l : List Value) : bitsVal l < 2 ^ l.length := by
  induction l with
  | nil => simp [bitsVal]
  | cons v t ih =>
      rw [bitsVal]
      simp only [List.length_cons, pow_succ]
      split <;> omega

/-- Bit `i` of `bitsVal l` is set exactly when cell `i` of the group is
positive (reading past the group gives the zero default). -/
theorem testBit_bitsVal (l : List Value) (i : Nat) :
    (bitsVal l).testBit i = decide (0 < (l.getD i ⟨0⟩).v) := by
  induction l generalizing i with
  | nil => simp [bitsVal, List.getD]
  | cons v t ih =>
      cases i with
      | zero =>
          simp only [bitsVal, Nat.testBit_zero, List.getD_cons_zero]
          by_cases hv : 0 < v.v
          · simp only [if_pos hv, decide_eq_decide]
            exact iff_of_true (by omega) hv
          · simp only [if_neg hv, decide_eq_decide]
            exact iff_of_false (by omega) hv
      | succ i =>
          simp only [bitsVal, Nat.testBit_add_one, List.getD_cons_succ]
          rw [show ((if 0 < v.v then 1 else 0) + 2 * bitsVal t) / 2 = bitsVal t from
            by split <;> omega]
          exact ih i

/-- The byte the inner loop of `reduce` builds for a group of at most 8
cells equals the little-endian bit sum of the group: the `uint8`
truncation never fires and the final OR only ever adds the low bit. -/
theorem groupByte_eq_bitsVal (l : List Value) (h : l.length ≤ 8) :
    groupByte l = bitsVal l := by
  induction l with
  | nil => rfl
  | cons v t ih =>
      have ht : t.length ≤ 8 := by
        simp only [List.length_cons] at h; omega
      have hfold : groupByte (v :: t) =
          (fun acc (w : Value) =>
              if 0 < w.Get then Nat.lor (acc * 2 % 256) 1 else acc * 2 % 256)
            (groupByte t) v := by
        rw [groupByte, groupByte, List.foldl_reverse, List.foldl_reverse,
          List.foldr_cons]
      have hbound : bitsVal t < 128 := by
        have h1 := bitsVal_lt t
        have h2 : (2 : Nat) ^ t.length ≤ 2 ^ 7 :=
          Nat.pow_le_pow_right (by omega) (by simp only [List.length_cons] at h; omega)
        calc bitsVal t < 2 ^ t.length := h1
          _ ≤ 2 ^ 7 := h2
          _ = 128 := by norm_num
      have hmod : bitsVal t * 2 % 256 = bitsVal t * 2 :=
        Nat.mod_eq_of_lt (by omega)
      have hlor : ∀ y : Nat, y < 256 → y % 2 = 0 → Nat.lor y 1 = y + 1 := by decide
      rw [hfold, ih ht]
      by_cases hv : 0 < v.v
      · simp only [Value.Get, if_pos hv, hmod, bitsVal]
        rw [hlor (bitsVal t * 2) (by omega) (by omega)]
        omega
      · simp only [Value.Get, if_neg hv, hmod, bitsVal]
        omega

/-- One unfolding step of `reduce`: on any nonempty input, the byte of
the first (up to 8 cells) group lands at the end of the output, after
the bytes of the remaining groups. -/
theorem reduce_cons (l : List Value) (h : l ≠ []) :
    reduce l = reduce (l.drop 8) ++ [groupByte (l.take 8)] := by
  rcases l with _ | ⟨v0, _ | ⟨v1, _ | ⟨v2, _ | ⟨v3, _ | ⟨v4, _ | ⟨v5, _ | ⟨v6, _ |
    ⟨v7, _ | ⟨v8, t⟩⟩⟩⟩⟩⟩⟩⟩⟩
  · exact absurd rfl h
  all_goals rfl

/-- `reduce` emits one byte per group of 8 cells, rounding up. -/
theorem reduce_length (l : List Value) :
    (reduce l).length = (l.length + 7) / 8 := by
  suffices H : ∀ (n : Nat) (l : List Value), l.length ≤ n →
      (reduce l).length = (l.length + 7) / 8 from H l.length l le_rfl
  intro n
  induction n with
  | zero =>
      intro l hl
      have : l = [] := List.eq_nil_of_length_eq_zero (by omega)
      subst this
      rfl
  | succ n ih =>
      intro l hl
      rcases eq_or_ne l [] with rfl | hne
      · rfl
      · have h0 : 0 < l.length := List.length_pos.mpr hne
        rw [reduce_cons l hne]
        have ihd := ih (l.drop 8) (by simp only [List.length_drop]; omega)
        simp only [List.length_append, ihd, List.length_drop, List.length_cons,
          List.length_nil]
        omega

/-- The byte of group `g` (cells `8g .. 8g+7`) sits at output index
`totalGroups - 1 - g`. -/
theorem reduce_getD (l : List Value) :
    ∀ g : Nat, g < (l.length + 7) / 8 →
      (reduce l).getD ((l.length + 7) / 8 - 1 - g) 0 =
        groupByte ((l.drop (8 * g)).take 8) := by
  suffices H : ∀ (n : Nat) (l : List Value), l.length ≤ n →
      ∀ g : Nat, g < (l.length + 7) / 8 →
        (reduce l).getD ((l.length + 7) / 8 - 1 - g) 0 =
          groupByte ((l.drop (8 * g)).take 8) from H l.length l le_rfl
  intro n
  induction n with
  | zero =>
      intro l hl g hg
      have : l = [] := List.eq_nil_of_length_eq_zero (by omega)
      subst this
      simp at hg
  | succ n ih =>
      intro l hl g hg
      rcases eq_or_ne l [] with rfl | hne
      · simp at hg
      · have h0 : 0 < l.length := List.length_pos.mpr hne
        have hdl : (l.drop 8).length = l.length - 8 := List.length_drop 8 l
        have hrl : (reduce (l.drop 8)).length = ((l.drop 8).length + 7) / 8 :=
          reduce_length (l.drop 8)
        rw [reduce_cons l hne]
        cases g with
        | zero =>
            have hidx : (l.length + 7) / 8 - 1 - 0 = (reduce (l.drop 8)).length := by
              rw [hrl, hdl]; omega
            rw [hidx, List.getD_append_right _ _ _ _ (Nat.le_refl _), Nat.sub_self]
            simp
        | succ g =>
            have hidx : (l.length + 7) / 8 - 1 - (g + 1) =
                ((l.drop 8).length + 7) / 8 - 1 - g := by
              rw [hdl]; omega
            have hglt : g < ((l.drop 8).length + 7) / 8 := by
              rw [hdl]; omega
            have hbound : ((l.drop 8).length + 7) / 8 - 1 - g <
                (reduce (l.drop 8)).length := by
              rw [hrl]; omega
            rw [hidx, List.getD_append _ _ _ _ hbound,
              ih (l.drop 8) (by rw [hdl]; omega) g hglt, List.drop_drop]
            rw [show (8 : Nat) + 8 * g = 8 * (g + 1) from by omega]

/-- Reading inside a group slice reads the original list at the shifted
position. -/
theorem getD_take_drop (l : List Value) (m i : Nat) (hi : i < 8) :
    ((l.drop m).take 8).getD i ⟨0⟩ = l.getD (m + i) ⟨0⟩ := by
  simp [List.getD, List.getElem?_take_of_lt hi, List.getElem?_drop]

/-- C1: `reduce` returns exactly `ceil(N/8)` bytes; the output byte at
index `totalGroups - 1 - g` has bit `i` set exactly when cell `8g + i`
exists and is positive (so group 0 fills the last byte and the possibly
partial final group fills index 0); and on the nine cells
`[1,0,1,0,1,0,1,0,1]` the result is `[0x01, 0x55]`. -/
theorem C1_reduce (vs : List Value) :
    (reduce vs).length = (vs.length + 7) / 8 ∧
    (∀ b ∈ reduce vs, b < 256) ∧
    (∀ g i : Nat, g < (vs.length + 7) / 8 → i < 8 →
      Nat.testBit ((reduce vs).getD ((vs.length + 7) / 8 - 1 - g) 0) i =
        decide (0 < (vs.getD (8 * g + i) ⟨0⟩).v)) ∧
    reduce [⟨1⟩, ⟨0⟩, ⟨1⟩, ⟨0⟩, ⟨1⟩, ⟨0⟩, ⟨1⟩, ⟨0⟩, ⟨1⟩] = [0x01, 0x55] := by
  have htl : ∀ m : Nat, ((vs.drop m).take 8).length ≤ 8 := by
    intro m; simp [List.length_take]
  refine ⟨reduce_length vs, ?_, ?_, by rfl⟩
  · intro b hb
    obtain ⟨k, hk, hbk⟩ := List.mem_iff_getElem.mp hb
    have hk' : k < (vs.length + 7) / 8 := by
      rw [← reduce_length vs]; exact hk
    have hgd : (reduce vs).getD k 0 = b := by
      rw [List.getD_eq_getElem _ _ hk]; exact hbk
    have hgk : (vs.length + 7) / 8 - 1 - ((vs.length + 7) / 8 - 1 - k) = k := by
      omega
    have := reduce_getD vs ((vs.length + 7) / 8 - 1 - k) (by omega)
    rw [hgk, hgd] at this
    rw [this, groupByte_eq_bitsVal _ (htl _)]
    calc bitsVal _ < 2 ^ ((vs.drop (8 * ((vs.length + 7) / 8 - 1 - k))).take 8).length :=
          bitsVal_lt _
      _ ≤ 2 ^ 8 := Nat.pow_le_pow_right (by omega) (htl _)
      _ = 256 := by norm_num
  · intro g i hg hi
    rw [reduce_getD vs g hg, groupByte_eq_bitsVal _ (htl _), testBit_bitsVal,
      getD_take_drop vs (8 * g) i hi]

/-- Witness for C1 on the nine-cell vector, group 0, bit 2. -/
theorem C1_witness :
    Nat.testBit ((reduce [⟨1⟩, ⟨0⟩, ⟨1⟩, ⟨0⟩, ⟨1⟩, ⟨0⟩, ⟨1⟩, ⟨0⟩, ⟨1⟩]).getD
      ((([⟨1⟩, ⟨0⟩, ⟨1⟩, ⟨0⟩, ⟨1⟩, ⟨0⟩, ⟨1⟩, ⟨0⟩, ⟨1⟩] : List Value).length + 7) / 8 - 1 - 0) 0) 2 =
      decide (0 < (([⟨1⟩, ⟨0⟩, ⟨1⟩, ⟨0⟩, ⟨1⟩, ⟨0⟩, ⟨1⟩, ⟨0⟩, ⟨1⟩] : List Value).getD
        (8 * 0 + 2) ⟨0⟩).v) :=
  (C1_reduce [⟨1⟩, ⟨0⟩, ⟨1⟩, ⟨0⟩, ⟨1⟩, ⟨0⟩, ⟨1⟩, ⟨0⟩, ⟨1⟩]).2.2.1 0 2 (by decide) (by decide)

end Goldfish
